import Mathlib

/-!
Shallow embedding of the ws-chat-server core (`src/server.js`):
the client registry, the action dispatcher, and the broadcast fanout
engine, together with the four request handlers (`joinChat`,
`leaveChat`, `sendChat`, `changeNickname`).

Connections are modelled by identifiers (`ClientId`); reference
identity (`Object.is`, `indexOf` with strict equality) becomes
equality of identifiers.  The mutable `nickname` property attached to
a connection object is modelled by a map `ClientId → Option String`
carried in the server state.  The transport's `readyState ===
WebSocket.OPEN` query is a fixed parameter `ready : ClientId → Bool`
(the transport owns it; the core only reads it).  `Date.now()` is a
parameter `t`.  JSON values exchanged on the wire are modelled by the
record `Obj`, whose optional fields cover exactly the keys the server
ever reads or writes; `none` stands for an absent (or `null`,
equivalently via `isSet`) key.  Every observable effect (a
`client.send(...)` or a `console.warn` accompanying an eviction) is
recorded in an event list, in program order.
-/

/-- A connection handle; identity stands for JS reference identity. -/
abbrev ClientId := Nat

/-- The `data` sub-object of an `incomingChat` broadcast.  The `me`
field is a boolean whose `true` value models presence of `me: true`
on the wire (the server never writes `me: false`). -/
structure ChatData where
  time : Nat
  name : Option String
  content : String
  me : Bool
deriving DecidableEq, Repr

/-- A JSON object on the wire (inbound request or outbound message).
Fields the server never set on a given message are `none`. -/
structure Obj where
  error : Option String := none
  action : Option String := none
  client : Option ClientId := none
  nickname : Option String := none
  oldNickname : Option String := none
  newNickname : Option String := none
  message : Option String := none
  data : Option ChatData := none
deriving DecidableEq, Repr

/-- Observable effects of the server code, in program order:
`send c w` is `c.send(JSON.stringify(w))`; `evictLog c` is the
`console.warn` emitted when broadcast deletes a closed client. -/
inductive Ev where
  | send (target : ClientId) (w : Obj)
  | evictLog (target : ClientId)
deriving DecidableEq, Repr

/-- The server's mutable state: the global `clients` array and the
`nickname` property of every connection object. -/
structure St where
  clients : List ClientId
  nick : ClientId → Option String

/-- `isSet` from the source: a value is set unless `undefined`/`null`. -/
def isSet (v : Option α) : Bool := v.isSome

/-- The error reply `incomingMessageError`: sends `\x7berror: e\x7d`. -/
def errEv (c : ClientId) (e : String) : Ev :=
  Ev.send c { error := some e }

/-- Assignment `client.nickname = n` on the nickname map. -/
def setNick (c : ClientId) (n : String) (f : ClientId → Option String) :
    ClientId → Option String :=
  fun x => if x = c then some n else f x

/-- The per-recipient copy built inside `broadcast`:
`JSON.parse(JSON.stringify(data))` (a deep copy), then
`delete dataInstance.client`, then `dataInstance.data.me = true`
when the recipient is the tagged origin (`data.client &&
Object.is(client, data.client)`).  The source only ever tags
`client` on envelopes that carry a `data` object, so the `me`
assignment is modelled on the `data` field directly. -/
def perRecipient (env : Obj) (c : ClientId) : Obj :=
  let d : Obj := { env with client := none }
  match env.client with
  | some o =>
      if c = o then { d with data := d.data.map (fun x => { x with me := true }) }
      else d
  | none => d

/-- The body of `clients.forEach((client, index) => ...)` inside
`broadcast`.  JavaScript's `forEach` fixes the iteration bound at the
array's length on entry (`steps`), increments `index` (`k`) every
iteration, skips indices no longer present (`k in O` fails once the
array has shrunk below `k`), and reads the element currently at index
`k` — so an in-place `splice(index, 1)` shifts the following element
into the visited slot.  Open recipients are sent the per-recipient
copy; a closed one is spliced out of the array and logged. -/
def broadcastGo (ready : ClientId → Bool) (env : Obj) :
    Nat → Nat → List ClientId → List ClientId × List Ev
  | 0, _, arr => (arr, [])
  | steps + 1, k, arr =>
    if h : k < arr.length then
      let c := arr.get ⟨k, h⟩
      if ready c then
        let r := broadcastGo ready env steps (k + 1) arr
        (r.1, Ev.send c (perRecipient env c) :: r.2)
      else
        let r := broadcastGo ready env steps (k + 1) (arr.eraseIdx k)
        (r.1, Ev.evictLog c :: r.2)
    else
      broadcastGo ready env steps (k + 1) arr

/-- `broadcast(data)`: walk the clients array (guarded by
`clients.length > 0`), sending the adapted copy to each open client
and deleting closed ones in place.  Returns the updated clients
array and the emitted events. -/
def broadcast (ready : ClientId → Bool) (env : Obj) (arr : List ClientId) :
    List ClientId × List Ev :=
  if arr.length > 0 then broadcastGo ready env arr.length 0 arr
  else (arr, [])

/-- `wsFunctions.joinChat`: reject a client already in `clients`
(`indexOf != -1`), reject a missing nickname, otherwise broadcast
`clientJoin` (before the push, so over the prior members only),
record the nickname on the connection, push the client, and send the
direct welcome reply. -/
def joinChat (ready : ClientId → Bool) (c : ClientId) (d : Obj) (s : St) :
    St × List Ev :=
  if c ∈ s.clients then
    (s, [errEv c "Client already joined"])
  else
    match d.nickname with
    | none => (s, [errEv c "nickname is missing"])
    | some n =>
      let b := broadcast ready { action := some "clientJoin", nickname := some n }
        s.clients
      let welcome : Obj :=
        { action := some "welcomeClient", nickname := some n,
          message := some ("Welcome " ++ n ++ "!") }
      (⟨b.1 ++ [c], setNick c n s.nick⟩, b.2 ++ [Ev.send c welcome])

/-- `wsFunctions.leaveChat`: if the clients array is non-empty and
contains the client (`indexOf != -1`), save its nickname, splice it
out, and broadcast `clientLeave` with the saved name; otherwise do
nothing. -/
def leaveChat (ready : ClientId → Bool) (c : ClientId) (s : St) :
    St × List Ev :=
  if s.clients.length > 0 then
    if c ∈ s.clients then
      let nickname := s.nick c
      let rest := s.clients.erase c
      let b := broadcast ready { action := some "clientLeave", nickname := nickname }
        rest
      (⟨b.1, s.nick⟩, b.2)
    else (s, [])
  else (s, [])

/-- `wsFunctions.sendChat`: reject a missing message, otherwise
broadcast `incomingChat` tagged with the originating client and
carrying `data = \x7btime, name, content\x7d`. -/
def sendChat (ready : ClientId → Bool) (t : Nat) (c : ClientId) (d : Obj)
    (s : St) : St × List Ev :=
  match d.message with
  | none => (s, [errEv c "message is missing"])
  | some m =>
    let b := broadcast ready
      { client := some c, action := some "incomingChat",
        data := some { time := t, name := s.nick c, content := m, me := false } }
      s.clients
    (⟨b.1, s.nick⟩, b.2)

/-- `wsFunctions.changeNickname`: reject a missing nickname, otherwise
save the old name, assign the new one, and broadcast
`nicknameChange` to all members (no origin tag, hence no `me` flag
and no self-exclusion). -/
def changeNickname (ready : ClientId → Bool) (c : ClientId) (d : Obj) (s : St) :
    St × List Ev :=
  match d.nickname with
  | none => (s, [errEv c "nickname is missing"])
  | some n =>
    let oldNickname := s.nick c
    let s1 : St := ⟨s.clients, setNick c n s.nick⟩
    let b := broadcast ready
      { action := some "nicknameChange", oldNickname := oldNickname,
        newNickname := some n }
      s1.clients
    (⟨b.1, s1.nick⟩, b.2)

/-- One request handler, as stored in `wsFunctionsMap`. -/
abbrev Handler := ClientId → Obj → St → St × List Ev

/-- The `wsFunctionsMap` built by `init()` from the `wsFunctions`
object: an exact-string lookup over the four registered actions.
(`leaveChat` is declared with a single parameter and ignores the
envelope it is invoked with.) -/
def wsFunctionsMap (ready : ClientId → Bool) (t : Nat) :
    String → Option Handler := fun a =>
  if a = "joinChat" then some (joinChat ready)
  else if a = "leaveChat" then some (fun c _ s => leaveChat ready c s)
  else if a = "sendChat" then some (sendChat ready t)
  else if a = "changeNickname" then some (changeNickname ready)
  else none

/-- `incomingMessage`: error reply if `data.action` is unset, error
reply if the action is not in the map, otherwise run the matched
handler on `(client, data)`. -/
def incomingMessage (ready : ClientId → Bool) (t : Nat) (c : ClientId)
    (d : Obj) (s : St) : St × List Ev :=
  match d.action with
  | none => (s, [errEv c "action is missing"])
  | some a =>
    match wsFunctionsMap ready t a with
    | none => (s, [errEv c "No such action"])
    | some f => f c d s

/-- An inbound raw text, abstracting the external JSON parser
(`isJSON` / `JSON.parse`): either it fails to parse, or it yields an
object. -/
inductive Raw where
  | malformed
  | parsed (d : Obj)

/-- `wsMessage`: validate the JSON format of the inbound text, reply
`Invalid JSON format` on failure, otherwise dispatch the parsed
object. -/
def wsMessage (ready : ClientId → Bool) (t : Nat) (c : ClientId) (r : Raw)
    (s : St) : St × List Ev :=
  match r with
  | Raw.malformed => (s, [errEv c "Invalid JSON format"])
  | Raw.parsed d => incomingMessage ready t c d s

/-- `wsClose`: the transport close event always invokes `leaveChat`. -/
def wsClose (ready : ClientId → Bool) (c : ClientId) (s : St) : St × List Ev :=
  leaveChat ready c s

/-! ### Helper lemmas about the broadcast fanout -/

/-- When every client in the array is open, the `forEach` body never
splices, so the walk from index `k` for `steps` iterations sends the
per-recipient copy to exactly the clients `(arr.drop k).take steps`,
in order, and leaves the array unchanged. -/
lemma broadcastGo_all_open (ready : ClientId → Bool) (env : Obj)
    (steps : Nat) (k : Nat) (arr : List ClientId)
    (h : ∀ x ∈ arr, ready x = true) :
    broadcastGo ready env steps k arr
      = (arr, ((arr.drop k).take steps).map
          (fun c => Ev.send c (perRecipient env c))) := by
  induction steps generalizing k with
  | zero => simp [broadcastGo]
  | succ steps ih =>
    by_cases hk : k < arr.length
    · have hc : ready (arr.get ⟨k, hk⟩) = true := h _ (arr.get_mem k hk)
      rw [broadcastGo, dif_pos hk]
      simp only [hc, if_true, ih (k + 1)]
      rw [List.drop_eq_getElem_cons hk, List.take_succ_cons, List.map_cons]
      simp [List.get_eq_getElem]
    · rw [broadcastGo, dif_neg hk]
      rw [ih (k + 1)]
      have h1 : arr.drop k = [] := by
        rw [List.drop_eq_nil_iff]; omega
      have h2 : arr.drop (k + 1) = [] := by
        rw [List.drop_eq_nil_iff]; omega
      rw [h1, h2]
      simp

/-- `broadcast` over an all-open registry: no eviction, one send per
member, in registry order. -/
lemma broadcast_all_open (ready : ClientId → Bool) (env : Obj)
    (arr : List ClientId) (h : ∀ x ∈ arr, ready x = true) :
    broadcast ready env arr
      = (arr, arr.map (fun c => Ev.send c (perRecipient env c))) := by
  rw [broadcast]
  by_cases h0 : arr.length > 0
  · rw [if_pos h0, broadcastGo_all_open ready env arr.length 0 arr h]
    simp
  · have : arr = [] := by
      rw [← List.length_eq_zero]; omega
    subst this; simp

/-- The array left by the `forEach` walk is a sublist of the input:
broadcast only ever removes entries. -/
lemma broadcastGo_sublist (ready : ClientId → Bool) (env : Obj)
    (steps : Nat) (k : Nat) (arr : List ClientId) :
    (broadcastGo ready env steps k arr).1.Sublist arr := by
  induction steps generalizing k arr with
  | zero => simp [broadcastGo]
  | succ steps ih =>
    rw [broadcastGo]
    by_cases hk : k < arr.length
    · rw [dif_pos hk]
      by_cases hc : ready (arr.get ⟨k, hk⟩) = true
    -- open recipient: the array is passed through unchanged
      · simp only [hc, if_true]
        exact ih (k + 1) arr
    -- closed recipient: spliced out, and splicing is a sublist step
      · simp only [hc]
        simp only [Bool.not_eq_true] at hc
        simp only [hc, Bool.false_eq_true, if_false]
        exact (ih (k + 1) (arr.eraseIdx k)).trans (arr.eraseIdx_sublist k)
    · rw [dif_neg hk]
      exact ih (k + 1) arr

/-- The registry after any `broadcast` is a sublist of the registry
before it. -/
lemma broadcast_sublist (ready : ClientId → Bool) (env : Obj)
    (arr : List ClientId) : (broadcast ready env arr).1.Sublist arr := by
  rw [broadcast]
  by_cases h0 : arr.length > 0
  · rw [if_pos h0]; exact broadcastGo_sublist ready env arr.length 0 arr
  · rw [if_neg h0]

/-- An envelope with no origin tag is transmitted as-is (the
`delete dataInstance.client` is a no-op and no `me` flag is set). -/
lemma perRecipient_no_client (env : Obj) (c : ClientId)
    (h : env.client = none) : perRecipient env c = env := by
  cases env
  simp only [perRecipient] at *
  simp_all

/-- The template `incomingChat` envelope built by `sendChat`, tagged
with the originating connection. -/
def chatEnv (o : ClientId) (t : Nat) (nm : Option String) (m : String) : Obj :=
  { client := some o, action := some "incomingChat",
    data := some { time := t, name := nm, content := m, me := false } }

/-- The wire form of one delivered `incomingChat` copy. -/
def chatWire (t : Nat) (nm : Option String) (m : String) (meFlag : Bool) : Obj :=
  { action := some "incomingChat",
    data := some { time := t, name := nm, content := m, me := meFlag } }

/-- The per-recipient copy of a chat envelope: the origin tag is
stripped and `me` is set exactly on the origin's copy. -/
lemma perRecipient_chat (o : ClientId) (t : Nat) (nm : Option String)
    (m : String) (c : ClientId) :
    perRecipient (chatEnv o t nm m) c = chatWire t nm m (decide (c = o)) := by
  by_cases h : c = o
  · simp [perRecipient, chatEnv, chatWire, h]
  · simp [perRecipient, chatEnv, chatWire, h]

/-! ### Wire shapes of the broadcast and reply messages -/

/-- The `clientJoin` broadcast envelope. -/
def joinWire (n : String) : Obj :=
  { action := some "clientJoin", nickname := some n }

/-- The direct `welcomeClient` reply. -/
def welcomeWire (n : String) : Obj :=
  { action := some "welcomeClient", nickname := some n,
    message := some ("Welcome " ++ n ++ "!") }

/-- The `clientLeave` broadcast envelope. -/
def leaveWire (nm : Option String) : Obj :=
  { action := some "clientLeave", nickname := nm }

/-- The `nicknameChange` broadcast envelope. -/
def renameWire (old : Option String) (n : String) : Obj :=
  { action := some "nicknameChange", oldNickname := old, newNickname := some n }

/-- A server state with the given registry and no nickname recorded on
any connection. -/
def mkSt (cs : List ClientId) : St := ⟨cs, fun _ => none⟩

/-! ### Helper lemmas about the handlers -/

/-- `sendChat` over an all-open registry delivers to every member one
copy whose `me` flag marks exactly the origin, and leaves the state
unchanged. -/
lemma sendChat_all_open (ready : ClientId → Bool) (t : Nat) (o : ClientId)
    (m : String) (s : St) (hopen : ∀ x ∈ s.clients, ready x = true) :
    sendChat ready t o { message := some m } s
      = (s, s.clients.map
          (fun x => Ev.send x (chatWire t (s.nick o) m (decide (x = o))))) := by
  show (_, _) = _
  rw [show ({ client := some o, action := some "incomingChat", data := some { time := t, name := s.nick o, content := m, me := false } } : Obj) = chatEnv o t (s.nick o) m from rfl]
  rw [broadcast_all_open ready _ _ hopen]
  refine Prod.ext rfl ?_
  show List.map _ s.clients = _
  rw [List.map_congr_left fun x _ => by rw [perRecipient_chat]]

/-- `joinChat` on a non-member with a set nickname, over an all-open
registry: broadcast to the prior members, record the nickname, append
the client, send the welcome. -/
lemma joinChat_all_open (ready : ClientId → Bool) (c : ClientId) (n : String)
    (s : St) (hc : c ∉ s.clients) (hopen : ∀ x ∈ s.clients, ready x = true) :
    joinChat ready c { nickname := some n } s
      = (⟨s.clients ++ [c], setNick c n s.nick⟩,
         s.clients.map (fun x => Ev.send x (joinWire n))
           ++ [Ev.send c (welcomeWire n)]) := by
  rw [joinChat, if_neg hc]
  show (_, _) = _
  rw [show ({ action := some "clientJoin", nickname := some n } : Obj)
    = joinWire n from rfl]
  rw [broadcast_all_open ready _ _ hopen]
  refine Prod.ext rfl ?_
  show List.map _ s.clients ++ _ = _
  rw [List.map_congr_left fun x _ => by
    rw [perRecipient_no_client (joinWire n) x rfl]]
  rfl

/-- `leaveChat` on a non-member is the identity with no events. -/
lemma leaveChat_not_mem (ready : ClientId → Bool) (c : ClientId) (s : St)
    (hc : c ∉ s.clients) : leaveChat ready c s = (s, []) := by
  rw [leaveChat]
  by_cases h0 : s.clients.length > 0
  · rw [if_pos h0, if_neg hc]
  · rw [if_neg h0]

/-- `leaveChat` on a member, when every remaining member is open:
splice the client out and broadcast `clientLeave` with its saved
nickname to the remaining members. -/
lemma leaveChat_member_all_open (ready : ClientId → Bool) (c : ClientId)
    (s : St) (hc : c ∈ s.clients)
    (hopen : ∀ x ∈ s.clients.erase c, ready x = true) :
    leaveChat ready c s
      = (⟨s.clients.erase c, s.nick⟩,
         (s.clients.erase c).map (fun x => Ev.send x (leaveWire (s.nick c)))) := by
  have h0 : s.clients.length > 0 := List.length_pos.mpr (List.ne_nil_of_mem hc)
  rw [leaveChat, if_pos h0, if_pos hc]
  show (_, _) = _
  rw [show ({ action := some "clientLeave", nickname := s.nick c } : Obj)
    = leaveWire (s.nick c) from rfl]
  rw [broadcast_all_open ready _ _ hopen]
  refine Prod.ext rfl ?_
  exact List.map_congr_left fun x _ => by
    rw [perRecipient_no_client (leaveWire (s.nick c)) x rfl]

/-- `changeNickname` with a set nickname, over an all-open registry:
record the new name and broadcast `nicknameChange` carrying the old
and the new name to every member. -/
lemma changeNickname_some (ready : ClientId → Bool) (c : ClientId) (n : String)
    (s : St) (hopen : ∀ x ∈ s.clients, ready x = true) :
    changeNickname ready c { nickname := some n } s
      = (⟨s.clients, setNick c n s.nick⟩,
         s.clients.map (fun x => Ev.send x (renameWire (s.nick c) n))) := by
  show (_, _) = _
  rw [show ({ action := some "nicknameChange", oldNickname := s.nick c, newNickname := some n } : Obj) = renameWire (s.nick c) n from rfl]
  rw [broadcast_all_open ready _ _ hopen]
  refine Prod.ext rfl ?_
  exact List.map_congr_left fun x _ => by
    rw [perRecipient_no_client (renameWire (s.nick c) n) x rfl]

/-! ### Claim theorems -/

/-- **C1.** The claim says `broadcast` sends to every member whose
channel is open and evicts, in place during the same pass, every
member whose channel is closed, with no open member skipped.  The
code walks the live `clients` array with `forEach` while splicing
evicted entries in place, so the member after an evicted one shifts
into the already-visited slot and is skipped: on the registry
`[0, 1]` with client `0` closed and client `1` open, client `1` is
open yet receives no send; with both `0` and `1` closed, client `1`
is closed yet is not evicted and stays in the registry. -/
theorem broadcast_forEach_splice_skips :
    broadcast (fun c => decide (c = 1)) (leaveWire (some "x")) [0, 1]
      = ([1], [Ev.evictLog 0])
    ∧ broadcast (fun _ => false) (leaveWire (some "x")) [0, 1]
      = ([1], [Ev.evictLog 0]) :=
  ⟨rfl, rfl⟩

/-- **C2.** A `sendChat` broadcast over a registry of open members
containing the origin delivers to every member one copy; the origin's
copy carries `me = true`, every other copy carries no `me` flag, the
internal origin reference is stripped from every transmitted copy,
and repeating the broadcast from the resulting state yields the same
output (the shared template is never mutated). -/
theorem sendChat_me_flag (ready : ClientId → Bool) (t : Nat) (o : ClientId)
    (m : String) (s : St) (ho : o ∈ s.clients)
    (hopen : ∀ x ∈ s.clients, ready x = true) :
    sendChat ready t o { message := some m } s
      = (s, s.clients.map
          (fun x => Ev.send x (chatWire t (s.nick o) m (decide (x = o)))))
    ∧ Ev.send o (chatWire t (s.nick o) m true)
        ∈ (sendChat ready t o { message := some m } s).2
    ∧ (∀ x w, Ev.send x w ∈ (sendChat ready t o { message := some m } s).2 →
        x ≠ o → w = chatWire t (s.nick o) m false)
    ∧ (∀ x w, Ev.send x w ∈ (sendChat ready t o { message := some m } s).2 →
        w.client = none)
    ∧ sendChat ready t o { message := some m }
        ((sendChat ready t o { message := some m } s).1)
        = sendChat ready t o { message := some m } s := by
  have h := sendChat_all_open ready t o m s hopen
  refine ⟨h, ?_, ?_, ?_, ?_⟩
  · rw [h]
    exact List.mem_map.mpr ⟨o, ho, by simp⟩
  · intro x w hw hx
    rw [h] at hw
    rcases List.mem_map.mp hw with ⟨y, _, hEq⟩
    rcases hEq with ⟨⟩
    simp [hx]
  · intro x w hw
    rw [h] at hw
    rcases List.mem_map.mp hw with ⟨y, _, hEq⟩
    rcases hEq with ⟨⟩
    simp [chatWire]
  · rw [h]
    exact h

/-- **C4.** The dispatcher replies `Invalid JSON format` to
non-parseable text without touching the state; for a parsed envelope
it replies `action is missing` when the action is unset, replies
`No such action` when the action is not in the handler map, and
otherwise hands `(connection, envelope)` to exactly the matched
handler.  On each error path exactly one error reply is emitted and
the state (hence the registry) is unchanged. -/
theorem dispatcher_cases (ready : ClientId → Bool) (t : Nat) (c : ClientId)
    (s : St) :
    wsMessage ready t c Raw.malformed s = (s, [errEv c "Invalid JSON format"])
    ∧ (∀ d : Obj, d.action = none →
        wsMessage ready t c (Raw.parsed d) s = (s, [errEv c "action is missing"]))
    ∧ (∀ (d : Obj) (a : String), d.action = some a →
        wsFunctionsMap ready t a = none →
        wsMessage ready t c (Raw.parsed d) s = (s, [errEv c "No such action"]))
    ∧ (∀ (d : Obj) (a : String) (f : Handler), d.action = some a →
        wsFunctionsMap ready t a = some f →
        wsMessage ready t c (Raw.parsed d) s = f c d s) := by
  refine ⟨rfl, ?_, ?_, ?_⟩
  · intro d hd
    simp [wsMessage, incomingMessage, hd]
  · intro d a hd hf
    simp [wsMessage, incomingMessage, hd, hf]
  · intro d a f hd hf
    simp [wsMessage, incomingMessage, hd, hf]

/-- **C7.** `joinChat` replies `Client already joined` when the
connection is already a member (checked first), and `nickname is
missing` when it is not a member but the nickname is unset; on both
paths the reply is the single emitted event and the state — registry
and recorded nicknames — is unchanged. -/
theorem joinChat_errors (ready : ClientId → Bool) (c : ClientId) (d : Obj)
    (s : St) :
    (c ∈ s.clients →
      joinChat ready c d s = (s, [errEv c "Client already joined"]))
    ∧ (c ∉ s.clients → d.nickname = none →
      joinChat ready c d s = (s, [errEv c "nickname is missing"])) := by
  constructor
  · intro hm
    rw [joinChat, if_pos hm]
  · intro hm hn
    rw [joinChat, if_neg hm, hn]

/-- **C8.** `leaveChat` on a connection that is not a member — never
joined, or already removed — emits no event, raises no error, and
leaves the state unchanged; in particular, immediately repeating it
is also a no-op, so it is idempotent on non-members. -/
theorem leaveChat_nonmember_noop (ready : ClientId → Bool) (c : ClientId)
    (s : St) :
    (c ∉ s.clients → leaveChat ready c s = (s, []))
    ∧ (c ∉ s.clients →
        leaveChat ready c ((leaveChat ready c s).1) = ((leaveChat ready c s).1, [])) := by
  refine ⟨leaveChat_not_mem ready c s, ?_⟩
  intro hm
  rw [leaveChat_not_mem ready c s hm]
  exact leaveChat_not_mem ready c s hm

/-! ### Case-analysis helper lemmas for the handlers -/

/-- `sendChat` with a missing message: one error reply, no state change. -/
lemma sendChat_none (ready : ClientId → Bool) (t : Nat) (c : ClientId)
    (d : Obj) (s : St) (hm : d.message = none) :
    sendChat ready t c d s = (s, [errEv c "message is missing"]) := by
  unfold sendChat
  rw [hm]

/-- `sendChat` with a message: broadcast the tagged chat envelope. -/
lemma sendChat_some (ready : ClientId → Bool) (t : Nat) (c : ClientId)
    (d : Obj) (s : St) (m : String) (hm : d.message = some m) :
    sendChat ready t c d s
      = (⟨(broadcast ready (chatEnv c t (s.nick c) m) s.clients).1, s.nick⟩,
         (broadcast ready (chatEnv c t (s.nick c) m) s.clients).2) := by
  unfold sendChat
  rw [hm]
  rfl

/-- `joinChat` on a non-member with a set nickname: broadcast
`clientJoin` over the prior registry, then push the client and send
the welcome reply. -/
lemma joinChat_push (ready : ClientId → Bool) (c : ClientId) (n : String)
    (d : Obj) (s : St) (hm : c ∉ s.clients) (hn : d.nickname = some n) :
    joinChat ready c d s
      = (⟨(broadcast ready (joinWire n) s.clients).1 ++ [c], setNick c n s.nick⟩,
         (broadcast ready (joinWire n) s.clients).2 ++ [Ev.send c (welcomeWire n)]) := by
  rw [joinChat, if_neg hm, hn]
  rfl

/-- `leaveChat` on a member: splice the client out, then broadcast
`clientLeave` over the remaining registry. -/
lemma leaveChat_member (ready : ClientId → Bool) (c : ClientId) (s : St)
    (hm : c ∈ s.clients) :
    leaveChat ready c s
      = (⟨(broadcast ready (leaveWire (s.nick c)) (s.clients.erase c)).1, s.nick⟩,
         (broadcast ready (leaveWire (s.nick c)) (s.clients.erase c)).2) := by
  have h0 : s.clients.length > 0 := List.length_pos.mpr (List.ne_nil_of_mem hm)
  rw [leaveChat, if_pos h0, if_pos hm]
  rfl

/-- `changeNickname` with a set nickname: record the name, then
broadcast `nicknameChange` over the registry. -/
lemma changeNickname_someEq (ready : ClientId → Bool) (c : ClientId)
    (d : Obj) (s : St) (n : String) (hn : d.nickname = some n) :
    changeNickname ready c d s
      = (⟨(broadcast ready (renameWire (s.nick c) n) s.clients).1, setNick c n s.nick⟩,
         (broadcast ready (renameWire (s.nick c) n) s.clients).2) := by
  unfold changeNickname
  rw [hn]
  rfl

/-- Appending a fresh element preserves `Nodup`. -/
lemma nodup_append_singleton {l : List ClientId} {c : ClientId}
    (hl : l.Nodup) (hc : c ∉ l) : (l ++ [c]).Nodup := by
  rw [List.nodup_append]
  refine ⟨hl, List.nodup_singleton c, ?_⟩
  intro a ha hb
  rw [List.mem_singleton] at hb
  subst hb
  exact hc ha

/-! ### Claim theorems, continued -/

/-- **C3 counterexample.** Join-then-leave does not always restore the
prior membership set: starting from the registry `[0]` with client
`0` closed and client `1` open, client `1` joining emits a
`clientJoin` broadcast that evicts the stale client `0`, so after
client `1` leaves the registry is `[]`, not the prior `[0]`. -/
theorem join_then_leave_not_restoring :
    ((leaveChat (fun c => decide (c = 1)) 1
        ((joinChat (fun c => decide (c = 1)) 1 { nickname := some "n" }
          (mkSt [0])).1)).1).clients = []
    ∧ (mkSt [0]).clients = [0] :=
  ⟨rfl, rfl⟩

/-- **C3** (amended: provided every prior member's channel is open).
`join` followed immediately by `leave`, for a connection that is not
a member, restores the prior registry; the join emits exactly one
`clientJoin` broadcast (one copy per prior member, plus the direct
welcome reply), the leave emits exactly one `clientLeave` broadcast
(one copy per prior member), and the only message the connection
itself receives is its welcome reply — neither announcement is
delivered to it. -/
theorem join_then_leave_roundtrip (ready : ClientId → Bool) (c : ClientId)
    (n : String) (s : St) (hc : c ∉ s.clients)
    (hopen : ∀ x ∈ s.clients, ready x = true) :
    ((leaveChat ready c ((joinChat ready c { nickname := some n } s).1)).1).clients
      = s.clients
    ∧ (joinChat ready c { nickname := some n } s).2
        = s.clients.map (fun x => Ev.send x (joinWire n)) ++ [Ev.send c (welcomeWire n)]
    ∧ (leaveChat ready c ((joinChat ready c { nickname := some n } s).1)).2
        = s.clients.map (fun x => Ev.send x (leaveWire (some n)))
    ∧ (∀ w, Ev.send c w ∈ (joinChat ready c { nickname := some n } s).2 →
        w = welcomeWire n)
    ∧ (∀ w, Ev.send c w
        ∉ (leaveChat ready c ((joinChat ready c { nickname := some n } s).1)).2) := by
  have hj := joinChat_all_open ready c n s hc hopen
  have herase : (s.clients ++ [c]).erase c = s.clients := by
    rw [List.erase_append_right _ hc]
    simp
  have hcm : c ∈ s.clients ++ [c] := by simp
  have hopen2 : ∀ x ∈ ((⟨s.clients ++ [c], setNick c n s.nick⟩ : St).clients).erase c,
      ready x = true := by
    intro x hx
    rw [show ((⟨s.clients ++ [c], setNick c n s.nick⟩ : St).clients) = s.clients ++ [c]
      from rfl, herase] at hx
    exact hopen x hx
  have hl := leaveChat_member_all_open ready c ⟨s.clients ++ [c], setNick c n s.nick⟩
    hcm hopen2
  rw [show (⟨s.clients ++ [c], setNick c n s.nick⟩ : St).clients = s.clients ++ [c]
    from rfl, herase] at hl
  have hnick : setNick c n s.nick c = some n := by simp [setNick]
  rw [show (⟨s.clients ++ [c], setNick c n s.nick⟩ : St).nick = setNick c n s.nick
    from rfl, hnick] at hl
  refine ⟨?_, ?_, ?_, ?_, ?_⟩
  · rw [hj]
    show ((leaveChat ready c (⟨s.clients ++ [c], setNick c n s.nick⟩ : St)).1).clients
      = s.clients
    rw [hl]
  · rw [hj]
  · rw [hj]
    show (leaveChat ready c (⟨s.clients ++ [c], setNick c n s.nick⟩ : St)).2
      = s.clients.map (fun x => Ev.send x (leaveWire (some n)))
    rw [hl]
  · intro w hw
    rw [hj] at hw
    have hw2 : Ev.send c w ∈ s.clients.map (fun x => Ev.send x (joinWire n))
        ++ [Ev.send c (welcomeWire n)] := hw
    rcases List.mem_append.mp hw2 with h | h
    · rcases List.mem_map.mp h with ⟨y, hy, hEq⟩
      rcases hEq with ⟨⟩
      exact absurd hy hc
    · rw [List.mem_singleton] at h
      rcases h with ⟨⟩
      rfl
  · intro w hw
    rw [hj] at hw
    have hw2 : Ev.send c w
        ∈ (leaveChat ready c (⟨s.clients ++ [c], setNick c n s.nick⟩ : St)).2 := hw
    rw [hl] at hw2
    rcases List.mem_map.mp hw2 with ⟨y, hy, hEq⟩
    rcases hEq with ⟨⟩
    exact absurd hy hc

/-- **C5.** A successful join broadcasts `clientJoin` over the prior
registry first (so the joining connection, not yet a member, is not
among the recipients), then records the display name, then appends
the connection to the registry, and only then sends the direct
`welcomeClient` reply to the joining connection alone, as the last
event. -/
theorem joinChat_order (ready : ClientId → Bool) (c : ClientId) (n : String)
    (s : St) (hc : c ∉ s.clients) (hopen : ∀ x ∈ s.clients, ready x = true) :
    joinChat ready c { nickname := some n } s
      = (⟨s.clients ++ [c], setNick c n s.nick⟩,
         s.clients.map (fun x => Ev.send x (joinWire n)) ++ [Ev.send c (welcomeWire n)])
    ∧ setNick c n s.nick c = some n
    ∧ (∀ w, Ev.send c w ∉ s.clients.map (fun x => Ev.send x (joinWire n))) := by
  refine ⟨joinChat_all_open ready c n s hc hopen, by simp [setNick], ?_⟩
  intro w hw
  rcases List.mem_map.mp hw with ⟨y, hy, hEq⟩
  rcases hEq with ⟨⟩
  exact absurd hy hc

/-- **C9.** `changeNickname` with an unset nickname replies with the
missing-field error and changes nothing; with a set nickname it
captures the old name, records the new one on the connection, and
broadcasts `nicknameChange` carrying both names to every member —
including the renamed connection itself when it is a member (no
self-exclusion, unlike join and leave). -/
theorem changeNickname_spec (ready : ClientId → Bool) (c : ClientId)
    (n : String) (s : St) (hopen : ∀ x ∈ s.clients, ready x = true) :
    changeNickname ready c { nickname := none } s
      = (s, [errEv c "nickname is missing"])
    ∧ changeNickname ready c { nickname := some n } s
        = (⟨s.clients, setNick c n s.nick⟩,
           s.clients.map (fun x => Ev.send x (renameWire (s.nick c) n)))
    ∧ setNick c n s.nick c = some n
    ∧ (c ∈ s.clients →
        Ev.send c (renameWire (s.nick c) n)
          ∈ (changeNickname ready c { nickname := some n } s).2) := by
  refine ⟨rfl, changeNickname_some ready c n s hopen, by simp [setNick], ?_⟩
  intro hm
  rw [changeNickname_some ready c n s hopen]
  exact List.mem_map.mpr ⟨c, hm, rfl⟩

/-- **C6.** Every operation preserves the registry invariant in the
single-threaded event model: the registry stays duplicate-free; only
a successful `joinChat` ever adds an entry (and only the joining
connection, appended once); `leaveChat`, `sendChat`,
`changeNickname` and `broadcast` (hence also the transport-close
path, which is `leaveChat`) only ever remove entries, leaving a
sublist of the prior registry. -/
theorem registry_invariant_preserved (ready : ClientId → Bool) (t : Nat)
    (c : ClientId) (d : Obj) (env : Obj) (s : St) (h : s.clients.Nodup) :
    (joinChat ready c d s).1.clients.Nodup
    ∧ (c ∈ s.clients → (joinChat ready c d s).1.clients = s.clients)
    ∧ (c ∉ s.clients → (joinChat ready c d s).1.clients.Sublist (s.clients ++ [c]))
    ∧ (leaveChat ready c s).1.clients.Nodup
    ∧ (leaveChat ready c s).1.clients.Sublist s.clients
    ∧ (sendChat ready t c d s).1.clients.Nodup
    ∧ (sendChat ready t c d s).1.clients.Sublist s.clients
    ∧ (changeNickname ready c d s).1.clients.Nodup
    ∧ (changeNickname ready c d s).1.clients.Sublist s.clients
    ∧ (broadcast ready env s.clients).1.Nodup
    ∧ (broadcast ready env s.clients).1.Sublist s.clients := by
  have hleave : (leaveChat ready c s).1.clients.Sublist s.clients := by
    by_cases hm : c ∈ s.clients
    · rw [leaveChat_member ready c s hm]
      exact (broadcast_sublist ready _ _).trans (List.erase_sublist c s.clients)
    · rw [leaveChat_not_mem ready c s hm]
  have hsend : (sendChat ready t c d s).1.clients.Sublist s.clients := by
    cases hm : d.message with
    | none => rw [sendChat_none ready t c d s hm]
    | some m =>
      rw [sendChat_some ready t c d s m hm]
      exact broadcast_sublist ready _ _
  have hrename : (changeNickname ready c d s).1.clients.Sublist s.clients := by
    cases hn : d.nickname with
    | none =>
      unfold changeNickname
      rw [hn]
    | some n =>
      rw [changeNickname_someEq ready c d s n hn]
      exact broadcast_sublist ready _ _
  have hjoin : (joinChat ready c d s).1.clients.Nodup
      ∧ (c ∈ s.clients → (joinChat ready c d s).1.clients = s.clients)
      ∧ (c ∉ s.clients → (joinChat ready c d s).1.clients.Sublist (s.clients ++ [c])) := by
    by_cases hm : c ∈ s.clients
    · rw [joinChat, if_pos hm]
      exact ⟨h, fun _ => rfl, fun hnm => absurd hm hnm⟩
    · cases hn : d.nickname with
      | none =>
        rw [joinChat, if_neg hm, hn]
        exact ⟨h, fun hmm => absurd hmm hm, fun _ => List.sublist_append_left _ _⟩
      | some n =>
        rw [joinChat_push ready c n d s hm hn]
        have hsub := broadcast_sublist ready (joinWire n) s.clients
        have hnd : (broadcast ready (joinWire n) s.clients).1.Nodup :=
          List.Nodup.sublist hsub h
        have hnc : c ∉ (broadcast ready (joinWire n) s.clients).1 :=
          fun hx => hm (hsub.subset hx)
        exact ⟨nodup_append_singleton hnd hnc, fun hmm => absurd hmm hm,
          fun _ => List.Sublist.append hsub (List.Sublist.refl [c])⟩
  exact ⟨hjoin.1, hjoin.2.1, hjoin.2.2,
    List.Nodup.sublist hleave h, hleave,
    List.Nodup.sublist hsend h, hsend,
    List.Nodup.sublist hrename h, hrename,
    List.Nodup.sublist (broadcast_sublist ready env s.clients) h,
    broadcast_sublist ready env s.clients⟩

/-- **C10.** Neither `sendChat` nor `changeNickname` checks registry
membership: a connection that never joined (not a member, no
recorded display name) can send a chat, which is broadcast to all
current members with `name` taken from its unset display name
(absent) and no copy or error reply delivered to the non-member
itself; and it can rename itself, which records the name and
broadcasts `nicknameChange` with `oldNickname` absent, again with no
error reply to the non-member. -/
theorem nonmember_send_and_rename (ready : ClientId → Bool) (t : Nat)
    (c : ClientId) (m n : String) (s : St) (hc : c ∉ s.clients)
    (hn : s.nick c = none) (hopen : ∀ x ∈ s.clients, ready x = true) :
    sendChat ready t c { message := some m } s
      = (s, s.clients.map (fun x => Ev.send x (chatWire t none m (decide (x = c)))))
    ∧ (∀ w, Ev.send c w ∉ (sendChat ready t c { message := some m } s).2)
    ∧ (∀ x w, Ev.send x w ∈ (sendChat ready t c { message := some m } s).2 →
        w.error = none)
    ∧ changeNickname ready c { nickname := some n } s
        = (⟨s.clients, setNick c n s.nick⟩,
           s.clients.map (fun x => Ev.send x (renameWire none n)))
    ∧ setNick c n s.nick c = some n
    ∧ (∀ w, Ev.send c w ∉ (changeNickname ready c { nickname := some n } s).2) := by
  have hs := sendChat_all_open ready t c m s hopen
  rw [hn] at hs
  have hr := changeNickname_some ready c n s hopen
  rw [hn] at hr
  refine ⟨hs, ?_, ?_, hr, by simp [setNick], ?_⟩
  · intro w hw
    rw [hs] at hw
    rcases List.mem_map.mp hw with ⟨y, hy, hEq⟩
    rcases hEq with ⟨⟩
    exact hc hy
  · intro x w hw
    rw [hs] at hw
    rcases List.mem_map.mp hw with ⟨y, hy, hEq⟩
    rcases hEq with ⟨⟩
    simp [chatWire]
  · intro w hw
    rw [hr] at hw
    rcases List.mem_map.mp hw with ⟨y, hy, hEq⟩
    rcases hEq with ⟨⟩
    exact hc hy

/-! ### Witnesses -/

/-- Witness for C2: two open members `1` and `2`, origin `1`; the
origin's copy carries `me = true`, the other carries `me` absent. -/
theorem sendChat_me_flag_witness :
    sendChat (fun _ => true) 5 1 { message := some "hi" } (mkSt [1, 2])
      = (mkSt [1, 2],
         [Ev.send 1 (chatWire 5 none "hi" true), Ev.send 2 (chatWire 5 none "hi" false)]) := by
  have h := (sendChat_me_flag (fun _ => true) 5 1 "hi" (mkSt [1, 2])
    (by decide) (fun x hx => rfl)).1
  rw [h]
  rfl

/-- Witness for C3 (amended): joining and leaving over the all-open
registry `[5]` restores it. -/
theorem join_then_leave_roundtrip_witness :
    ((leaveChat (fun _ => true) 7
        ((joinChat (fun _ => true) 7 { nickname := some "n" } (mkSt [5])).1)).1).clients
      = [5] :=
  (join_then_leave_roundtrip (fun _ => true) 7 "n" (mkSt [5]) (by decide)
    (fun x hx => rfl)).1

/-- Witness for C4: dispatching `bogusAction` yields exactly the
`No such action` error reply and leaves the state unchanged. -/
theorem dispatcher_cases_witness :
    wsMessage (fun _ => true) 0 3 (Raw.parsed { action := some "bogusAction" }) (mkSt [])
      = (mkSt [], [errEv 3 "No such action"]) :=
  (dispatcher_cases (fun _ => true) 0 3 (mkSt [])).2.2.1
    { action := some "bogusAction" } "bogusAction" rfl rfl

/-- Witness for C5: client `2` joins the registry `[1]`; the
`clientJoin` copy goes to the prior member `1` only, then `2` is
appended and welcomed directly. -/
theorem joinChat_order_witness :
    joinChat (fun _ => true) 2 { nickname := some "bob" } (mkSt [1])
      = (⟨[1, 2], setNick 2 "bob" (mkSt [1]).nick⟩,
         [Ev.send 1 (joinWire "bob"), Ev.send 2 (welcomeWire "bob")]) := by
  have h := (joinChat_order (fun _ => true) 2 "bob" (mkSt [1]) (by decide)
    (fun x hx => rfl)).1
  rw [h]
  rfl

/-- Witness for C6: joining client `3` over the duplicate-free
registry `[1, 2]` keeps the registry duplicate-free. -/
theorem registry_invariant_witness :
    (joinChat (fun _ => true) 3 { nickname := some "a" } (mkSt [1, 2])).1.clients.Nodup :=
  (registry_invariant_preserved (fun _ => true) 0 3 { nickname := some "a" }
    (leaveWire none) (mkSt [1, 2]) (by decide)).1

/-- Witness for C7: a join by the existing member `1` is rejected with
`Client already joined` and nothing changes. -/
theorem joinChat_errors_witness :
    joinChat (fun _ => true) 1 { nickname := some "a" } (mkSt [1])
      = (mkSt [1], [errEv 1 "Client already joined"]) :=
  (joinChat_errors (fun _ => true) 1 { nickname := some "a" } (mkSt [1])).1 (by decide)

/-- Witness for C8: `leaveChat` on the non-member `4` is a no-op. -/
theorem leaveChat_nonmember_noop_witness :
    leaveChat (fun _ => true) 4 (mkSt [1, 2]) = (mkSt [1, 2], []) :=
  (leaveChat_nonmember_noop (fun _ => true) 4 (mkSt [1, 2])).1 (by decide)

/-- Witness for C9: member `1` renames itself; the broadcast reaches
both members, including the renamer. -/
theorem changeNickname_spec_witness :
    changeNickname (fun _ => true) 1 { nickname := some "neo" } (mkSt [1, 2])
      = (⟨[1, 2], setNick 1 "neo" (mkSt [1, 2]).nick⟩,
         [Ev.send 1 (renameWire none "neo"), Ev.send 2 (renameWire none "neo")]) := by
  have h := (changeNickname_spec (fun _ => true) 1 "neo" (mkSt [1, 2])
    (fun x hx => rfl)).2.1
  rw [h]
  rfl

/-- Witness for C10: the never-joined client `7` sends a chat into the
registry `[1]`; member `1` gets the copy with `name` absent, and `7`
gets nothing. -/
theorem nonmember_send_and_rename_witness :
    sendChat (fun _ => true) 9 7 { message := some "yo" } (mkSt [1])
      = (mkSt [1], [Ev.send 1 (chatWire 9 none "yo" false)]) := by
  have h := (nonmember_send_and_rename (fun _ => true) 9 7 "yo" "zed" (mkSt [1])
    (by decide) rfl (fun x hx => rfl)).1
  rw [h]
  rfl
